import Mathlib

/-!
Verification of the VIA-Mapper layout converter (`src/run.py`).

The program converts VIA keyboard-configuration JSON documents between the
Keychron Q1 Pro and the GMMK Pro.  Its core is pure: two static layout
tables (lists of key-code tokens, one per physical position), an index
mapping computed by token identity (`get_mapping`), a per-layer
re-projection (`map_layer`), per-keyboard fixup tables, and a config-level
orchestration (`map_config` / `_map_config`) over a JSON-like dictionary.

Embedding conventions:
* key-code tokens are `String`s, layouts and layers are `List String`;
* a Python dict is an association list in insertion order; `dict.update`
  replaces existing keys in place and appends new ones (`set_key`,
  `dict_update`);
* the dict returned by `get_mapping` has its keys inserted in increasing
  source-index order, so iteration over `mapping.items()` is iteration over
  the association list in order;
* Python operations that can raise (`layer[idx]` with `idx` out of range,
  `config["layers"]` with the key missing) are `Option`-valued: `none`
  models the raised exception.
-/

namespace VIAMapper

set_option maxRecDepth 100000

/-- JSON-like values that may occur in a VIA configuration document.
Fields the program never inspects are `jother`, kept opaque. -/
inductive JVal where
  | jnum : Int → JVal
  | jstr : String → JVal
  | jlayers : List (List String) → JVal
  | jother : Nat → JVal
deriving DecidableEq

/-- Python `list.index` restricted to a successful/failing result:
the index of the first occurrence of `key`, `none` when absent
(models the `ValueError` branch of `get_mapping`). -/
def list_index (l : List String) (key : String) : Option Nat :=
  match l with
  | [] => none
  | x :: xs => if x = key then some 0 else (list_index xs key).map (· + 1)

/-- Loop of `get_mapping(old, new)` from `src/run.py`: enumerate `old`; skip the
placeholder; look up the first position of the token in `new`; on
`ValueError` (token absent) skip.  The auxiliary carries the running
enumeration index.  The resulting association list is the dict in
insertion order (keys strictly increasing). -/
def get_mapping_from (new : List String) : Nat → List String → List (Nat × Nat)
  | _, [] => []
  | i, key :: rest =>
    if key = "KC_NO" then get_mapping_from new (i + 1) rest
    else
      match list_index new key with
      | some j => (i, j) :: get_mapping_from new (i + 1) rest
      | none => get_mapping_from new (i + 1) rest

/-- Function `get_mapping(old, new)`: the index mapping as an ordered association
list, matching the Python dict's insertion (= iteration) order. -/
def get_mapping (old new : List String) : List (Nat × Nat) :=
  get_mapping_from new 0 old

/-- Expression `fixes[key] if key in fixes else key` from `map_layer`. -/
def apply_fixes (fixes : List (String × String)) (key : String) : String :=
  (fixes.lookup key).getD key

/-- One iteration of the loop body of `map_layer` for the pair
`p = (idx, new_idx)`.  `none` models a raised `IndexError`, either from
`layer[idx]` or from `new_layer[new_idx] = ...`. -/
def map_step (layer : List String) (fixes : List (String × String))
    (acc : Option (List String)) (p : Nat × Nat) : Option (List String) :=
  match acc with
  | none => none
  | some nl =>
    match layer[p.1]? with
    | none => none
    | some key =>
      if key = "KC_NO" then some nl
      else if p.2 < nl.length then some (nl.set p.2 (apply_fixes fixes key))
      else none

/-- Function `map_layer(layer, layer_size, mapping, fixes)` from `src/run.py`:
start from `layer_size` copies of the placeholder and run the loop over
the mapping's pairs in iteration order. -/
def map_layer (layer : List String) (layer_size : Nat)
    (mapping : List (Nat × Nat)) (fixes : List (String × String)) :
    Option (List String) :=
  mapping.foldl (map_step layer fixes) (some (List.replicate layer_size "KC_NO"))

/-- Python `d[k] = v` on a dict modelled as an ordered association list:
replace the value at the first occurrence of `k` keeping its position,
append `(k, v)` when `k` is absent. -/
def set_key : List (String × JVal) → String → JVal → List (String × JVal)
  | [], k, v => [(k, v)]
  | (k', v') :: rest, k, v =>
    if k' = k then (k, v) :: rest else (k', v') :: set_key rest k v

/-- Python `d.update(upd)`: assign every pair of `upd` in order. -/
def dict_update (d upd : List (String × JVal)) : List (String × JVal) :=
  upd.foldl (fun acc kv => set_key acc kv.1 kv.2) d

/-- The list comprehension
`[map_layer(layer, ...) for layer in config["layers"]]`; a raise in any
element aborts the whole comprehension. -/
def map_layers (layers : List (List String)) (layer_size : Nat)
    (mapping : List (Nat × Nat)) (fixes : List (String × String)) :
    Option (List (List String)) :=
  match layers with
  | [] => some []
  | l :: rest =>
    match map_layer l layer_size mapping fixes,
          map_layers rest layer_size mapping fixes with
    | some l2, some rest2 => some (l2 :: rest2)
    | _, _ => none

/-- Constant `KEYCHRON_LAYER` from `src/run.py` (96 entries). -/
def KEYCHRON_LAYER : List String :=
  [ "KC_ESC", "KC_F1", "KC_F2", "KC_F3", "KC_F4", "KC_F5", "KC_F6", "KC_F7",
    "KC_F8", "KC_F9", "KC_F10", "KC_F11", "KC_F12", "KC_PSCR", "KC_NO",
    "KC_MUTE", "KC_GRV", "KC_1", "KC_2", "KC_3", "KC_4", "KC_5", "KC_6",
    "KC_7", "KC_8", "KC_9", "KC_0", "KC_MINS", "KC_EQL", "KC_BSPC", "KC_NO",
    "KC_PGUP", "KC_TAB", "KC_Q", "KC_W", "KC_E", "KC_R", "KC_T", "KC_Y",
    "KC_U", "KC_I", "KC_O", "KC_P", "KC_LBRC", "KC_RBRC", "KC_BSLS", "KC_NO",
    "KC_PGDN", "KC_CAPS", "KC_A", "KC_S", "KC_D", "KC_F", "KC_G", "KC_H",
    "KC_J", "KC_K", "KC_L", "KC_SCLN", "KC_QUOT", "KC_NO", "KC_ENT", "KC_NO",
    "KC_HOME", "KC_LSFT", "KC_NO", "KC_Z", "KC_X", "KC_C", "KC_V", "KC_B",
    "KC_N", "KC_M", "KC_COMM", "KC_DOT", "KC_SLSH", "KC_NO", "KC_RSFT",
    "KC_UP", "KC_NO", "KC_LCTL", "KC_LGUI", "KC_LALT", "KC_NO", "KC_NO",
    "KC_NO", "KC_SPC", "KC_NO", "KC_NO", "KC_NO", "KC_RALT", "KC_FN",
    "KC_RCTL", "KC_LEFT", "KC_DOWN", "KC_RGHT" ]

/-- Constant `GMMK_LAYER` from `src/run.py` (88 entries; `"KC_DEL"` at index 53 is
the extra key with no Keychron counterpart). -/
def GMMK_LAYER : List String :=
  [ "KC_LSFT", "KC_MUTE", "KC_NO", "KC_LEFT", "KC_RCTL", "KC_RGHT",
    "KC_LCTL", "KC_F5", "KC_Q", "KC_TAB", "KC_A", "KC_ESC", "KC_Z",
    "KC_PGUP", "KC_GRV", "KC_1", "KC_W", "KC_CAPS", "KC_S", "KC_NO", "KC_X",
    "KC_PGDN", "KC_F1", "KC_2", "KC_E", "KC_F3", "KC_D", "KC_F4", "KC_C",
    "KC_UP", "KC_F2", "KC_3", "KC_R", "KC_T", "KC_F", "KC_G", "KC_V", "KC_B",
    "KC_5", "KC_4", "KC_U", "KC_Y", "KC_J", "KC_H", "KC_M", "KC_N", "KC_6",
    "KC_7", "KC_I", "KC_RBRC", "KC_K", "KC_F6", "KC_COMM", "KC_DEL",
    "KC_EQL", "KC_8", "KC_O", "KC_F7", "KC_L", "KC_DOWN", "KC_DOT",
    "KC_HOME", "KC_F8", "KC_9", "KC_P", "KC_LBRC", "KC_SCLN", "KC_QUOT",
    "KC_NO", "KC_SLSH", "KC_MINS", "KC_0", "KC_LGUI", "KC_RSFT", "KC_FN",
    "KC_LALT", "KC_SPC", "KC_RALT", "KC_NO", "KC_PSCR", "KC_NO", "KC_BSPC",
    "KC_BSLS", "KC_F11", "KC_ENT", "KC_F12", "KC_F9", "KC_F10" ]

/-- Constant `KEYCHRON_FIXES` from `src/run.py`. -/
def KEYCHRON_FIXES : List (String × String) :=
  [("CUSTOM(0)", "KC_LALT"), ("CUSTOM(1)", "KC_RALT"), ("CUSTOM(3)", "KC_RGUI")]

/-- Constant `GMMK_FIXES` from `src/run.py`. -/
def GMMK_FIXES : List (String × String) := []

/-- Constant `KEYCHRON_INFO` from `src/run.py`. -/
def KEYCHRON_INFO : List (String × JVal) :=
  [("name", JVal.jstr "Keyboard 81 Pro/Q1 Pro ANSI RGB Knob"),
   ("vendorProductId", JVal.jnum 875824656)]

/-- Constant `GMMK_INFO` from `src/run.py`. -/
def GMMK_INFO : List (String × JVal) :=
  [("name", JVal.jstr "GMMK Pro"), ("vendorProductId", JVal.jnum 839864388)]

/-- Function `detect_keyboard(config)` from `src/run.py`.  The outer `Option` is the
`KeyError` on a missing `vendorProductId`; the inner one is the function's
own result (`None` = unknown keyboard). -/
def detect_keyboard (config : List (String × JVal)) : Option (Option String) :=
  match config.lookup "vendorProductId" with
  | none => none
  | some v =>
    some (if KEYCHRON_INFO.lookup "vendorProductId" = some v then some "KEYCHRON"
          else if GMMK_INFO.lookup "vendorProductId" = some v then some "GMMK"
          else none)

/-- Function `_map_config(config, keyboard_info, layer_size, mapping, fixes)` from
`src/run.py`: shallow-copy the dict, overwrite it with the destination
keyboard's info, rebuild every layer from the *original* `config["layers"]`
and overwrite the `layers` key.  `none` models the `KeyError` when
`layers` is missing (or holds a non-layer value) and any `IndexError`
propagating out of `map_layer`. -/
def _map_config (config keyboard_info : List (String × JVal))
    (layer_size : Nat) (mapping : List (Nat × Nat))
    (fixes : List (String × String)) : Option (List (String × JVal)) :=
  match config.lookup "layers" with
  | some (JVal.jlayers layers) =>
    match map_layers layers layer_size mapping fixes with
    | some new_layers =>
      some (set_key (dict_update config keyboard_info) "layers"
        (JVal.jlayers new_layers))
    | none => none
  | _ => none

/-- Function `map_config(config, keyboard)` from `src/run.py`. -/
def map_config (config : List (String × JVal)) (keyboard : String) :
    Option (List (String × JVal)) :=
  let is_keychron := keyboard = "KEYCHRON"
  let keyboard_info := if is_keychron then GMMK_INFO else KEYCHRON_INFO
  let layer_size := if is_keychron then GMMK_LAYER.length else KEYCHRON_LAYER.length
  let fixes := if is_keychron then KEYCHRON_FIXES else GMMK_FIXES
  let from_layer := if is_keychron then KEYCHRON_LAYER else GMMK_LAYER
  let to_layer := if is_keychron then GMMK_LAYER else KEYCHRON_LAYER
  _map_config config keyboard_info layer_size (get_mapping from_layer to_layer) fixes

/-- A sample Keychron configuration: correct identifier, one full base
layer, and no other fields. -/
def keychron_sample_config : List (String × JVal) :=
  [("vendorProductId", JVal.jnum 875824656),
   ("name", JVal.jstr "Keyboard 81 Pro/Q1 Pro ANSI RGB Knob"),
   ("layers", JVal.jlayers [KEYCHRON_LAYER])]

/-- A minimal configuration with an extra pass-through field and no
layers. -/
def sample_extra_config : List (String × JVal) :=
  [("vendorProductId", JVal.jnum 875824656), ("macros", JVal.jother 7),
   ("layers", JVal.jlayers [])]

/-- Observer: the lengths of the layers stored in a configuration. -/
def layers_lengths (config : List (String × JVal)) : Option (List Nat) :=
  match config.lookup "layers" with
  | some (JVal.jlayers ls) => some (ls.map List.length)
  | _ => none

/-! ### Basic lemmas about the `map_layer` loop -/

theorem map_fold_none (layer : List String) (fixes : List (String × String))
    (mapping : List (Nat × Nat)) :
    mapping.foldl (map_step layer fixes) none = none := by
  induction mapping with
  | nil => rfl
  | cons q rest ih => simpa [map_step] using ih

/-- A successful fold over `q :: rest` decomposes into a successful step
on `q` followed by a successful fold over `rest`. -/
theorem map_fold_cons {layer : List String} {fixes : List (String × String)}
    {q : Nat × Nat} {rest : List (Nat × Nat)} {nl out : List String}
    (h : (q :: rest).foldl (map_step layer fixes) (some nl) = some out) :
    ∃ nl', map_step layer fixes (some nl) q = some nl' ∧
      rest.foldl (map_step layer fixes) (some nl') = some out := by
  rw [List.foldl_cons] at h
  cases hstep : map_step layer fixes (some nl) q with
  | none => rw [hstep, map_fold_none] at h; exact absurd h (by simp)
  | some nl' => exact ⟨nl', rfl, by rwa [hstep] at h⟩

/-- Anatomy of a successful loop iteration: the read `layer[p.1]`
succeeded, and either the key was the placeholder (no write) or the key
was written through the fixup table at an in-bounds destination. -/
theorem map_step_some {layer : List String} {fixes : List (String × String)}
    {p : Nat × Nat} {nl nl' : List String}
    (h : map_step layer fixes (some nl) p = some nl') :
    ∃ key, layer[p.1]? = some key ∧
      ((key = "KC_NO" ∧ nl' = nl) ∨
       (key ≠ "KC_NO" ∧ p.2 < nl.length ∧
        nl' = nl.set p.2 (apply_fixes fixes key))) := by
  unfold map_step at h
  cases hget : layer[p.1]? with
  | none => rw [hget] at h; exact absurd h (by simp)
  | some key =>
    rw [hget] at h
    refine ⟨key, rfl, ?_⟩
    by_cases hno : key = "KC_NO"
    · simp only [hno, if_pos rfl] at h
      exact Or.inl ⟨hno, (Option.some_inj.mp h).symm⟩
    · simp only [if_neg hno] at h
      by_cases hlt : p.2 < nl.length
      · rw [if_pos hlt] at h
        exact Or.inr ⟨hno, hlt, (Option.some_inj.mp h).symm⟩
      · rw [if_neg hlt] at h; exact absurd h (by simp)

/-- The loop never changes the length of the accumulator. -/
theorem map_fold_length {layer : List String} {fixes : List (String × String)} :
    ∀ {mapping : List (Nat × Nat)} {nl out : List String},
      mapping.foldl (map_step layer fixes) (some nl) = some out →
      out.length = nl.length := by
  intro mapping
  induction mapping with
  | nil =>
    intro nl out h
    simpa using (congrArg (fun o => o.map List.length) h).symm
  | cons q rest ih =>
    intro nl out h
    obtain ⟨nl', hstep, hrest⟩ := map_fold_cons h
    obtain ⟨key, -, hcase⟩ := map_step_some hstep
    rcases hcase with ⟨-, rfl⟩ | ⟨-, -, rfl⟩
    · exact ih hrest
    · simpa [List.length_set] using ih hrest

/-- If every pair's source index is readable and destination index is in
bounds, the loop completes without raising. -/
theorem map_fold_total {layer : List String} {fixes : List (String × String)} :
    ∀ {mapping : List (Nat × Nat)} {nl : List String},
      (∀ p ∈ mapping, p.1 < layer.length ∧ p.2 < nl.length) →
      ∃ out, mapping.foldl (map_step layer fixes) (some nl) = some out := by
  intro mapping
  induction mapping with
  | nil => intro nl _; exact ⟨nl, rfl⟩
  | cons q rest ih =>
    intro nl hb
    obtain ⟨h1, h2⟩ := hb q (List.mem_cons_self q rest)
    have hread : layer[q.1]? = some layer[q.1] := List.getElem?_eq_getElem h1
    by_cases hno : layer[q.1] = "KC_NO"
    · have hstep : map_step layer fixes (some nl) q = some nl := by
        simp [map_step, hread, hno]
      obtain ⟨out, hout⟩ :=
        ih (fun p hp => hb p (List.mem_cons_of_mem q hp))
      exact ⟨out, by rw [List.foldl_cons, hstep]; exact hout⟩
    · have hstep : map_step layer fixes (some nl) q =
          some (nl.set q.2 (apply_fixes fixes layer[q.1])) := by
        simp [map_step, hread, hno, h2]
      obtain ⟨out, hout⟩ := @ih (nl.set q.2 (apply_fixes fixes layer[q.1]))
        (fun p hp => by
          obtain ⟨hp1, hp2⟩ := hb p (List.mem_cons_of_mem q hp)
          exact ⟨hp1, by simpa [List.length_set] using hp2⟩)
      exact ⟨out, by rw [List.foldl_cons, hstep]; exact hout⟩

/-- Every pair iterated over by a successful loop had a readable source
index. -/
theorem map_fold_reads {layer : List String} {fixes : List (String × String)} :
    ∀ {mapping : List (Nat × Nat)} {nl out : List String},
      mapping.foldl (map_step layer fixes) (some nl) = some out →
      ∀ p ∈ mapping, ∃ key, layer[p.1]? = some key := by
  intro mapping
  induction mapping with
  | nil => intro nl out _ p hp; exact absurd hp (List.not_mem_nil p)
  | cons q rest ih =>
    intro nl out h p hp
    obtain ⟨nl', hstep, hrest⟩ := map_fold_cons h
    rcases List.mem_cons.mp hp with rfl | hp'
    · obtain ⟨key, hkey, -⟩ := map_step_some hstep
      exact ⟨key, hkey⟩
    · exact ih hrest p hp'

/-- If every pair aimed at destination `j` either skips (its source key is
the placeholder) or writes the fixed value `v`, and the accumulator already
holds `v` at `j`, then the final layer holds `v` at `j`. -/
theorem map_fold_const {layer : List String} {fixes : List (String × String)}
    {j : Nat} {v : String} :
    ∀ {mapping : List (Nat × Nat)} {nl out : List String},
      mapping.foldl (map_step layer fixes) (some nl) = some out →
      nl[j]? = some v →
      (∀ p ∈ mapping, p.2 = j →
        ∃ key, layer[p.1]? = some key ∧
          (key = "KC_NO" ∨ apply_fixes fixes key = v)) →
      out[j]? = some v := by
  intro mapping
  induction mapping with
  | nil =>
    intro nl out h hv _
    cases Option.some_inj.mp h; exact hv
  | cons q rest ih =>
    intro nl out h hv hall
    obtain ⟨nl', hstep, hrest⟩ := map_fold_cons h
    have htail : ∀ p ∈ rest, p.2 = j →
        ∃ key, layer[p.1]? = some key ∧
          (key = "KC_NO" ∨ apply_fixes fixes key = v) :=
      fun p hp => hall p (List.mem_cons_of_mem q hp)
    obtain ⟨key, hkey, hcase⟩ := map_step_some hstep
    rcases hcase with ⟨-, rfl⟩ | ⟨hno, hlt, rfl⟩
    · exact ih hrest hv htail
    · by_cases hj : q.2 = j
      · obtain ⟨key', hkey', hval⟩ := hall q (List.mem_cons_self q rest) hj
        have hkk : key' = key := by
          rw [hkey] at hkey'; exact (Option.some_inj.mp hkey').symm
        subst hkk
        rcases hval with hval | hval
        · exact absurd hval hno
        · refine ih hrest ?_ htail
          rw [hj] at hlt ⊢
          rw [List.getElem?_set_self hlt, hval]
      · refine ih hrest ?_ htail
        rw [List.getElem?_set_ne hj, hv]

/-- Positions of the destination no mapping pair effectively writes to
keep their initial value. -/
theorem map_fold_skip {layer : List String} {fixes : List (String × String)}
    {j : Nat} :
    ∀ {mapping : List (Nat × Nat)} {nl out : List String},
      mapping.foldl (map_step layer fixes) (some nl) = some out →
      (∀ p ∈ mapping, p.2 = j → layer[p.1]? = some "KC_NO") →
      out[j]? = nl[j]? := by
  intro mapping
  induction mapping with
  | nil => intro nl out h _; cases Option.some_inj.mp h; rfl
  | cons q rest ih =>
    intro nl out h hall
    obtain ⟨nl', hstep, hrest⟩ := map_fold_cons h
    have htail : ∀ p ∈ rest, p.2 = j → layer[p.1]? = some "KC_NO" :=
      fun p hp => hall p (List.mem_cons_of_mem q hp)
    obtain ⟨key, hkey, hcase⟩ := map_step_some hstep
    rcases hcase with ⟨-, rfl⟩ | ⟨hno, hlt, rfl⟩
    · exact ih hrest htail
    · by_cases hj : q.2 = j
      · have := hall q (List.mem_cons_self q rest) hj
        rw [hkey] at this
        exact absurd (Option.some_inj.mp this) hno
      · rw [ih hrest htail, List.getElem?_set_ne hj]

/-- A successful `List.lookup` pinpoints a pair of the association list. -/
theorem lookup_mem : ∀ {fixes : List (String × String)} {k v : String},
    fixes.lookup k = some v → (k, v) ∈ fixes := by
  intro fixes
  induction fixes with
  | nil => intro k v h; simp [List.lookup] at h
  | cons f fs ih =>
    intro k v h
    obtain ⟨fk, fv⟩ := f
    rw [List.lookup] at h
    cases hk : k == fk with
    | true =>
      rw [hk] at h
      cases Option.some_inj.mp h
      have : k = fk := by simpa using hk
      subst this
      exact List.mem_cons_self _ _
    | false =>
      rw [hk] at h
      exact List.mem_cons_of_mem _ (ih h)

/-- If `(i, j)` is in the mapping, `j` is hit by no other source index,
and the source key at `i` is a real key, then the final layer holds the
fixed-up key at `j`. -/
theorem map_fold_write {layer : List String} {fixes : List (String × String)}
    {i j : Nat} {key : String} :
    ∀ {mapping : List (Nat × Nat)} {nl out : List String},
      mapping.foldl (map_step layer fixes) (some nl) = some out →
      (i, j) ∈ mapping →
      (∀ p ∈ mapping, p.2 = j → p.1 = i) →
      layer[i]? = some key → key ≠ "KC_NO" →
      out[j]? = some (apply_fixes fixes key) := by
  intro mapping
  induction mapping with
  | nil => intro nl out _ hmem _ _ _; exact absurd hmem (List.not_mem_nil _)
  | cons q rest ih =>
    intro nl out h hmem huniq hkey hno
    obtain ⟨nl', hstep, hrest⟩ := map_fold_cons h
    have htail : ∀ p ∈ rest, p.2 = j → p.1 = i :=
      fun p hp => huniq p (List.mem_cons_of_mem q hp)
    rcases List.mem_cons.mp hmem with hq | hmem'
    · obtain ⟨key', hkey', hcase⟩ := map_step_some hstep
      have hq1 : q.1 = i := by rw [← hq]
      have hq2 : q.2 = j := by rw [← hq]
      have hkk : key' = key := by
        rw [hq1, hkey] at hkey'
        exact (Option.some_inj.mp hkey').symm
      rw [hkk] at hcase
      rcases hcase with ⟨hkno, -⟩ | ⟨-, hlt, hnl'⟩
      · exact absurd hkno hno
      · rw [hnl'] at hrest
        refine map_fold_const hrest ?_ ?_
        · rw [hq2] at hlt ⊢
          exact List.getElem?_set_self hlt
        · intro p hp hpj
          have hpi : p.1 = i := htail p hp hpj
          exact ⟨key, by rw [hpi]; exact hkey, Or.inr rfl⟩
    · exact ih hrest hmem' htail hkey hno

/-- Every token of the final layer is either the placeholder or arose as a
fixed-up real key read from the source layer at a mapped position. -/
theorem map_fold_mem {layer : List String} {fixes : List (String × String)} :
    ∀ {mapping : List (Nat × Nat)} {nl out : List String} {t : String},
      mapping.foldl (map_step layer fixes) (some nl) = some out →
      t ∈ out →
      t ∈ nl ∨ ∃ p ∈ mapping, ∃ key, layer[p.1]? = some key ∧
        key ≠ "KC_NO" ∧ apply_fixes fixes key = t := by
  intro mapping
  induction mapping with
  | nil => intro nl out t h ht; cases Option.some_inj.mp h; exact Or.inl ht
  | cons q rest ih =>
    intro nl out t h ht
    obtain ⟨nl', hstep, hrest⟩ := map_fold_cons h
    obtain ⟨key, hkey, hcase⟩ := map_step_some hstep
    rcases hcase with ⟨-, rfl⟩ | ⟨hno, -, rfl⟩
    · rcases ih hrest ht with hin | ⟨p, hp, w⟩
      · exact Or.inl hin
      · exact Or.inr ⟨p, List.mem_cons_of_mem q hp, w⟩
    · rcases ih hrest ht with hin | ⟨p, hp, w⟩
      · rcases List.mem_or_eq_of_mem_set hin with hin' | rfl
        · exact Or.inl hin'
        · exact Or.inr ⟨q, List.mem_cons_self q rest, key, hkey, hno, rfl⟩
      · exact Or.inr ⟨p, List.mem_cons_of_mem q hp, w⟩

/-- When no fixup value is the placeholder, a placeholder in the final
layer means every pair aimed at that position read the placeholder from
the source layer (i.e. the position kept its initial value). -/
theorem map_fold_placeholder {layer : List String}
    {fixes : List (String × String)} {j : Nat}
    (hfix : ∀ q ∈ fixes, q.2 ≠ "KC_NO") :
    ∀ {mapping : List (Nat × Nat)} {nl out : List String},
      mapping.foldl (map_step layer fixes) (some nl) = some out →
      out[j]? = some "KC_NO" →
      nl[j]? = some "KC_NO" ∧
        ∀ p ∈ mapping, p.2 = j → layer[p.1]? = some "KC_NO" := by
  intro mapping
  induction mapping with
  | nil =>
    intro nl out h hout
    cases Option.some_inj.mp h
    exact ⟨hout, fun p hp => absurd hp (List.not_mem_nil p)⟩
  | cons q rest ih =>
    intro nl out h hout
    obtain ⟨nl', hstep, hrest⟩ := map_fold_cons h
    obtain ⟨hnl', htail⟩ := ih hrest hout
    obtain ⟨key, hkey, hcase⟩ := map_step_some hstep
    rcases hcase with ⟨hkno, rfl⟩ | ⟨hno, hlt, rfl⟩
    · refine ⟨hnl', fun p hp hpj => ?_⟩
      rcases List.mem_cons.mp hp with rfl | hp'
      · rw [hkey, hkno]
      · exact htail p hp' hpj
    · have hval : apply_fixes fixes key ≠ "KC_NO" := by
        unfold apply_fixes
        cases hlook : fixes.lookup key with
        | none => simpa using hno
        | some v => simpa using hfix (key, v) (lookup_mem hlook)
      by_cases hj : q.2 = j
      · rw [hj] at hlt
        rw [hj, List.getElem?_set_self hlt] at hnl'
        exact absurd (Option.some_inj.mp hnl') hval
      · rw [List.getElem?_set_ne hj] at hnl'
        refine ⟨hnl', fun p hp hpj => ?_⟩
        rcases List.mem_cons.mp hp with rfl | hp'
        · exact absurd hpj hj
        · exact htail p hp' hpj

/-! ### Characterisation of `list_index` and `get_mapping` -/

/-- Function `list_index` returns exactly the first position holding `key`. -/
theorem list_index_eq_some :
    ∀ {l : List String} {key : String} {j : Nat},
      list_index l key = some j ↔
        (l[j]? = some key ∧ ∀ k, k < j → l[k]? ≠ some key) := by
  intro l
  induction l with
  | nil =>
    intro key j
    simp [list_index]
  | cons x xs ih =>
    intro key j
    rw [list_index]
    by_cases hx : x = key
    · subst hx
      rw [if_pos rfl]
      cases j with
      | zero => simp
      | succ n =>
        simp only [List.getElem?_cons_succ]
        constructor
        · intro h; exact absurd (Option.some_inj.mp h) (by omega)
        · rintro ⟨-, hall⟩
          exact absurd (by simp : (x :: xs)[0]? = some x)
            (hall 0 (Nat.succ_pos n))
    · rw [if_neg hx]
      cases j with
      | zero =>
        simp only [List.getElem?_cons_zero, Option.map_eq_some']
        constructor
        · rintro ⟨j', -, h⟩; exact absurd h (by omega)
        · rintro ⟨h, -⟩; exact absurd (Option.some_inj.mp h) hx
      | succ n =>
        simp only [List.getElem?_cons_succ, Option.map_eq_some']
        constructor
        · rintro ⟨j', hj', heq⟩
          have : j' = n := by omega
          subst this
          obtain ⟨h1, h2⟩ := ih.mp hj'
          refine ⟨h1, fun k hk => ?_⟩
          cases k with
          | zero =>
            simp only [List.getElem?_cons_zero, ne_eq, Option.some_inj]
            exact hx
          | succ m => simpa using h2 m (by omega)
        · rintro ⟨h1, h2⟩
          refine ⟨n, ih.mpr ⟨h1, fun m hm => ?_⟩, rfl⟩
          simpa using h2 (m + 1) (by omega)

/-- Membership in the enumeration loop of `get_mapping`, for an arbitrary
running index. -/
theorem get_mapping_from_mem :
    ∀ {old new : List String} {i0 a b : Nat},
      (a, b) ∈ get_mapping_from new i0 old ↔
        ∃ k key, a = i0 + k ∧ old[k]? = some key ∧ key ≠ "KC_NO" ∧
          list_index new key = some b := by
  intro old
  induction old with
  | nil =>
    intro new i0 a b
    simp [get_mapping_from]
  | cons key rest ih =>
    intro new i0 a b
    rw [get_mapping_from]
    by_cases hno : key = "KC_NO"
    · rw [if_pos hno]
      rw [ih]
      constructor
      · intro ⟨k, key', hk, hget, hkey', hidx⟩
        exact ⟨k + 1, key', by omega, by simpa using hget, hkey', hidx⟩
      · intro ⟨k, key', hk, hget, hkey', hidx⟩
        cases k with
        | zero =>
          rw [List.getElem?_cons_zero] at hget
          exact absurd (by rw [← Option.some_inj.mp hget]; exact hno) hkey'
        | succ m =>
          rw [List.getElem?_cons_succ] at hget
          exact ⟨m, key', by omega, hget, hkey', hidx⟩
    · rw [if_neg hno]
      have hrest : ((a, b) ∈ get_mapping_from new (i0 + 1) rest) ↔
          ∃ k key', a = i0 + (k + 1) ∧ rest[k]? = some key' ∧
            key' ≠ "KC_NO" ∧ list_index new key' = some b := by
        rw [ih]
        constructor
        · intro ⟨k, key', hk, h1, h2, h3⟩
          exact ⟨k, key', by omega, h1, h2, h3⟩
        · intro ⟨k, key', hk, h1, h2, h3⟩
          exact ⟨k, key', by omega, h1, h2, h3⟩
      cases hidx : list_index new key with
      | none =>
        rw [hrest]
        constructor
        · intro ⟨k, key', hk, h1, h2, h3⟩
          exact ⟨k + 1, key', hk, by simpa using h1, h2, h3⟩
        · intro ⟨k, key', hk, h1, h2, h3⟩
          cases k with
          | zero =>
            rw [List.getElem?_cons_zero] at h1
            rw [Option.some_inj.mp h1] at hidx
            rw [hidx] at h3
            exact absurd h3 (by simp)
          | succ m =>
            rw [List.getElem?_cons_succ] at h1
            exact ⟨m, key', by omega, h1, h2, h3⟩
      | some j =>
        rw [List.mem_cons, hrest]
        constructor
        · intro h
          rcases h with heq | ⟨k, key', hk, h1, h2, h3⟩
          · obtain ⟨ha, hb⟩ := Prod.mk.injEq .. ▸ heq
            refine ⟨0, key, by omega, by simp, hno, ?_⟩
            rw [hidx, hb]
          · exact ⟨k + 1, key', hk, by simpa using h1, h2, h3⟩
        · intro ⟨k, key', hk, h1, h2, h3⟩
          cases k with
          | zero =>
            rw [List.getElem?_cons_zero] at h1
            rw [Option.some_inj.mp h1] at hidx
            rw [hidx] at h3
            left
            have : a = i0 := by omega
            rw [this, Option.some_inj.mp h3]
          | succ m =>
            rw [List.getElem?_cons_succ] at h1
            exact Or.inr ⟨m, key', by omega, h1, h2, h3⟩

/-- Membership in `get_mapping old new`. -/
theorem get_mapping_mem {old new : List String} {i j : Nat} :
    (i, j) ∈ get_mapping old new ↔
      ∃ key, old[i]? = some key ∧ key ≠ "KC_NO" ∧
        list_index new key = some j := by
  rw [get_mapping, get_mapping_from_mem]
  constructor
  · intro ⟨k, key, hk, h1, h2, h3⟩
    have : k = i := by omega
    subst this
    exact ⟨key, h1, h2, h3⟩
  · intro ⟨key, h1, h2, h3⟩
    exact ⟨i, key, by omega, h1, h2, h3⟩

/-- Both components of every recorded pair are in bounds of the
respective layout. -/
theorem get_mapping_bounds {old new : List String} :
    ∀ p ∈ get_mapping old new, p.1 < old.length ∧ p.2 < new.length := by
  intro p hp
  have hp' : (p.1, p.2) ∈ get_mapping old new := by simpa using hp
  obtain ⟨key, h1, -, h3⟩ := get_mapping_mem.mp hp'
  obtain ⟨h4, -⟩ := list_index_eq_some.mp h3
  obtain ⟨hb1, -⟩ := List.getElem?_eq_some.mp h1
  obtain ⟨hb2, -⟩ := List.getElem?_eq_some.mp h4
  exact ⟨hb1, hb2⟩

/-- A successful `map_layer` call returns a layer of exactly the requested
length. -/
theorem map_layer_length {layer : List String} {size : Nat}
    {mapping : List (Nat × Nat)} {fixes : List (String × String)}
    {out : List String} (h : map_layer layer size mapping fixes = some out) :
    out.length = size := by
  have := @map_fold_length layer fixes mapping
    (List.replicate size "KC_NO") out h
  simpa using this

/-- A successful `map_layers` call maps the layer list element-wise:
same number of layers, each of the destination size. -/
theorem map_layers_spec {size : Nat} {mapping : List (Nat × Nat)}
    {fixes : List (String × String)} :
    ∀ {layers nls : List (List String)},
      map_layers layers size mapping fixes = some nls →
      nls.length = layers.length ∧ ∀ l ∈ nls, l.length = size := by
  intro layers
  induction layers with
  | nil =>
    intro nls h
    rw [map_layers] at h
    cases Option.some_inj.mp h
    exact ⟨rfl, fun l hl => absurd hl (List.not_mem_nil l)⟩
  | cons l rest ih =>
    intro nls h
    rw [map_layers] at h
    cases hl : map_layer l size mapping fixes with
    | none => rw [hl] at h; exact absurd h (by simp)
    | some l2 =>
      cases hr : map_layers rest size mapping fixes with
      | none => rw [hl, hr] at h; exact absurd h (by simp)
      | some rest2 =>
        rw [hl, hr] at h
        cases Option.some_inj.mp h
        obtain ⟨ih1, ih2⟩ := ih hr
        refine ⟨by simpa using congrArg Nat.succ ih1, fun x hx => ?_⟩
        rcases List.mem_cons.mp hx with rfl | hx'
        · exact map_layer_length hl
        · exact ih2 x hx'

/-- If every layer covers the whole source layout, every layer maps
successfully. -/
theorem map_layers_total {old new : List String}
    {fixes : List (String × String)} :
    ∀ {layers : List (List String)},
      (∀ l ∈ layers, old.length ≤ l.length) →
      ∃ nls, map_layers layers new.length (get_mapping old new) fixes = some nls := by
  intro layers
  induction layers with
  | nil => intro _; exact ⟨[], rfl⟩
  | cons l rest ih =>
    intro hcov
    have hb : ∀ p ∈ get_mapping old new,
        p.1 < l.length ∧ p.2 < (List.replicate new.length "KC_NO").length := by
      intro p hp
      obtain ⟨hb1, hb2⟩ := get_mapping_bounds p hp
      have := hcov l (List.mem_cons_self l rest)
      exact ⟨by omega, by simpa using hb2⟩
    obtain ⟨out, hout⟩ := @map_fold_total l fixes (get_mapping old new)
      (List.replicate new.length "KC_NO") hb
    obtain ⟨nls, hnls⟩ := ih (fun x hx => hcov x (List.mem_cons_of_mem l hx))
    refine ⟨out :: nls, ?_⟩
    rw [map_layers]
    rw [show map_layer l new.length (get_mapping old new) fixes = some out from hout]
    rw [hnls]

/-! ### Lookup lemmas for the dictionary model -/

theorem lookup_cons_of_ne {β : Type} {k fk : String} (v : β)
    (rest : List (String × β)) (h : k ≠ fk) :
    List.lookup k ((fk, v) :: rest) = List.lookup k rest := by
  rw [List.lookup, show (k == fk) = false by simpa using h]

theorem lookup_cons_self {β : Type} {k : String} (v : β)
    (rest : List (String × β)) :
    List.lookup k ((k, v) :: rest) = some v := by
  rw [List.lookup, beq_self_eq_true k]

/-- Assigning one key leaves every other key's lookup unchanged. -/
theorem lookup_set_key_ne {k k' : String} (hne : k ≠ k') :
    ∀ (d : List (String × JVal)) (v : JVal),
      (set_key d k' v).lookup k = d.lookup k := by
  intro d
  induction d with
  | nil =>
    intro v
    show List.lookup k [(k', v)] = List.lookup k []
    rw [lookup_cons_of_ne v [] hne]
  | cons f rest ih =>
    intro v
    obtain ⟨fk, fv⟩ := f
    rw [set_key]
    by_cases hf : fk = k'
    · rw [if_pos hf]
      subst hf
      rw [lookup_cons_of_ne v rest hne, lookup_cons_of_ne fv rest hne]
    · rw [if_neg hf]
      by_cases hk : k = fk
      · subst hk
        rw [lookup_cons_self fv (set_key rest k' v), lookup_cons_self fv rest]
      · rw [lookup_cons_of_ne fv (set_key rest k' v) hk,
          lookup_cons_of_ne fv rest hk, ih]

/-- Assigning a key makes its lookup return the assigned value. -/
theorem lookup_set_key_self :
    ∀ (d : List (String × JVal)) (k : String) (v : JVal),
      (set_key d k v).lookup k = some v := by
  intro d
  induction d with
  | nil => intro k v; exact lookup_cons_self v []
  | cons f rest ih =>
    intro k v
    obtain ⟨fk, fv⟩ := f
    rw [set_key]
    by_cases hf : fk = k
    · rw [if_pos hf]
      exact lookup_cons_self v rest
    · rw [if_neg hf]
      rw [lookup_cons_of_ne fv (set_key rest k v) (fun hh => hf hh.symm), ih]

/-- Updating a dict leaves the lookup of keys absent from the update
unchanged. -/
theorem lookup_dict_update_ne {k : String} :
    ∀ (info d : List (String × JVal)), (∀ q ∈ info, k ≠ q.1) →
      (dict_update d info).lookup k = d.lookup k := by
  intro info
  induction info with
  | nil => intro d _; rfl
  | cons q rest ih =>
    intro d hk
    show (dict_update (set_key d q.1 q.2) rest).lookup k = _
    rw [ih _ (fun p hp => hk p (List.mem_cons_of_mem q hp)),
      lookup_set_key_ne (hk q (List.mem_cons_self q rest)) d q.2]

/-- A successful `_map_config` call produces exactly the copy of the
input with the info assigned and `layers` overwritten by the mapped
layers of the input. -/
theorem _map_config_some {config info : List (String × JVal)} {size : Nat}
    {mapping : List (Nat × Nat)} {fixes : List (String × String)}
    {out : List (String × JVal)}
    (h : _map_config config info size mapping fixes = some out) :
    ∃ layers nls, config.lookup "layers" = some (JVal.jlayers layers) ∧
      map_layers layers size mapping fixes = some nls ∧
      out = set_key (dict_update config info) "layers" (JVal.jlayers nls) := by
  unfold _map_config at h
  split at h
  · rename_i layers hl
    split at h
    · rename_i nls hml
      exact ⟨layers, nls, hl, hml, (Option.some_inj.mp h).symm⟩
    · exact absurd h (by simp)
  · exact absurd h (by simp)

/-- Function `map_config` unfolded at the two keyboard kinds it is called with. -/
theorem map_config_eq (config : List (String × JVal)) (keyboard : String) :
    map_config config keyboard =
      if keyboard = "KEYCHRON" then
        _map_config config GMMK_INFO GMMK_LAYER.length
          (get_mapping KEYCHRON_LAYER GMMK_LAYER) KEYCHRON_FIXES
      else
        _map_config config KEYCHRON_INFO KEYCHRON_LAYER.length
          (get_mapping GMMK_LAYER KEYCHRON_LAYER) GMMK_FIXES := by
  by_cases hkb : keyboard = "KEYCHRON"
  · subst hkb
    rw [if_pos rfl]
    rfl
  · rw [if_neg hkb]
    unfold map_config
    simp only [hkb, if_neg, ite_false]

/-- Function `_map_config` rebuilt from its two successful sub-computations. -/
theorem _map_config_build {config info : List (String × JVal)} {size : Nat}
    {mapping : List (Nat × Nat)} {fixes : List (String × String)}
    {ls nls : List (List String)}
    (h2 : config.lookup "layers" = some (JVal.jlayers ls))
    (hnls : map_layers ls size mapping fixes = some nls) :
    _map_config config info size mapping fixes =
      some (set_key (dict_update config info) "layers" (JVal.jlayers nls)) := by
  unfold _map_config
  rw [h2]
  show (match map_layers ls size mapping fixes with
        | some new_layers =>
          some (set_key (dict_update config info) "layers"
            (JVal.jlayers new_layers))
        | none => none) = _
  rw [hnls]

/-- In an injective mapping, pairs are determined by their destination. -/
theorem pairwise_dest_unique {m : List (Nat × Nat)}
    (hinj : m.Pairwise (fun p q => p.2 ≠ q.2)) {p q : Nat × Nat}
    (hp : p ∈ m) (hq : q ∈ m) (heq : p.2 = q.2) : p = q := by
  by_contra hne
  exact List.Pairwise.forall (fun a b h => Ne.symm h) hinj hp hq hne heq

/-- The concrete Keychron→GMMK mapping hits no destination twice. -/
theorem keychron_gmmk_inj :
    (get_mapping KEYCHRON_LAYER GMMK_LAYER).Pairwise (fun p q => p.2 ≠ q.2) := by
  decide

/-- The concrete GMMK→Keychron mapping hits no destination twice. -/
theorem gmmk_keychron_inj :
    (get_mapping GMMK_LAYER KEYCHRON_LAYER).Pairwise (fun p q => p.2 ≠ q.2) := by
  decide

/-- Non-placeholder tokens are pairwise distinct in the Keychron layout. -/
theorem keychron_tokens_distinct :
    KEYCHRON_LAYER.Pairwise (fun a b => a ≠ "KC_NO" → b ≠ "KC_NO" → a ≠ b) := by
  decide

/-- Non-placeholder tokens are pairwise distinct in the GMMK layout. -/
theorem gmmk_tokens_distinct :
    GMMK_LAYER.Pairwise (fun a b => a ≠ "KC_NO" → b ≠ "KC_NO" → a ≠ b) := by
  decide

/-- GMMK position 53 (the extra delete key) has no pair in the
GMMK→Keychron mapping. -/
theorem gmmk_53_unmapped :
    ∀ q ∈ get_mapping GMMK_LAYER KEYCHRON_LAYER, q.1 ≠ 53 := by
  decide

/-! ### The claims -/

/-- C1: `get_mapping sourceLayout destLayout` records `i -> j` exactly
when position `i` of the source layout holds a non-placeholder token and
`j` is the first position of the destination layout holding the identical
token; a source token absent from the destination yields no pair; and
every recorded destination index is within bounds of the destination
layout. -/
theorem viaC1 (old new : List String) (i j : Nat) :
    ((i, j) ∈ get_mapping old new ↔
      ∃ key, old[i]? = some key ∧ key ≠ "KC_NO" ∧ new[j]? = some key ∧
        ∀ k, k < j → new[k]? ≠ some key) ∧
    ((i, j) ∈ get_mapping old new → j < new.length) := by
  constructor
  · rw [get_mapping_mem]
    constructor
    · rintro ⟨key, h1, h2, h3⟩
      obtain ⟨h4, h5⟩ := list_index_eq_some.mp h3
      exact ⟨key, h1, h2, h4, h5⟩
    · rintro ⟨key, h1, h2, h4, h5⟩
      exact ⟨key, h1, h2, list_index_eq_some.mpr ⟨h4, h5⟩⟩
  · intro hmem
    exact (get_mapping_bounds (i, j) hmem).2

theorem viaC1_witness :
    (0, 1) ∈ get_mapping ["KC_A"] ["KC_B", "KC_A"] ∧
      1 < (["KC_B", "KC_A"] : List String).length :=
  have hm : (0, 1) ∈ get_mapping ["KC_A"] ["KC_B", "KC_A"] := by decide
  ⟨hm, (viaC1 ["KC_A"] ["KC_B", "KC_A"] 0 1).2 hm⟩

/-- C2 (amended): `map_layer` returns a layer of length exactly
`layer_size` whenever the input layer covers every source index of the
mapping and every destination index is in bounds; an input layer shorter
than the mapping's source indices instead raises `IndexError` (modelled
as `none`), so the unrestricted claim fails. -/
theorem viaC2 (layer : List String) (size : Nat) (mapping : List (Nat × Nat))
    (fixes : List (String × String))
    (hb : ∀ p ∈ mapping, p.1 < layer.length ∧ p.2 < size) :
    ∃ out, map_layer layer size mapping fixes = some out ∧
      out.length = size := by
  obtain ⟨out, hout⟩ :=
    @map_fold_total layer fixes mapping (List.replicate size "KC_NO")
      (by simpa using hb)
  exact ⟨out, hout, map_layer_length hout⟩

theorem viaC2_witness :
    (map_layer ["KC_A"] 1 [(0, 0)] []).isSome = true ∧
      ((map_layer ["KC_A"] 1 [(0, 0)] []).getD []).length = 1 := by
  obtain ⟨out, hout, hlen⟩ := viaC2 ["KC_A"] 1 [(0, 0)] [] (by decide)
  rw [hout]
  exact ⟨rfl, hlen⟩

/-- C2 counterexample: with the valid index mapping built from source
layout `["KC_A"]` and destination `["KC_A"]`, an input layer shorter than
the source layout makes `map_layer` raise (return `none`) rather than
return a layer of the destination size. -/
theorem viaC2_counterexample :
    get_mapping ["KC_A"] ["KC_A"] = [(0, 0)] ∧
      map_layer [] 1 (get_mapping ["KC_A"] ["KC_A"]) [] = none := by
  decide

/-- C4: with a `vendorProductId` field present and holding an integer,
`detect_keyboard` returns `KEYCHRON` exactly for 875824656, `GMMK`
exactly for 839864388, and the `None` sentinel (never an exception) for
every other integer. -/
theorem viaC4 (config : List (String × JVal)) (v : Int)
    (h : config.lookup "vendorProductId" = some (JVal.jnum v)) :
    (detect_keyboard config = some (some "KEYCHRON") ↔ v = 875824656) ∧
    (detect_keyboard config = some (some "GMMK") ↔ v = 839864388) ∧
    (v ≠ 875824656 → v ≠ 839864388 → detect_keyboard config = some none) := by
  have hd : detect_keyboard config =
      some (if KEYCHRON_INFO.lookup "vendorProductId" = some (JVal.jnum v)
            then some "KEYCHRON"
            else if GMMK_INFO.lookup "vendorProductId" = some (JVal.jnum v)
            then some "GMMK" else none) := by
    unfold detect_keyboard
    rw [h]
  rw [hd]
  rcases eq_or_ne v 875824656 with rfl | h1
  · decide
  · rcases eq_or_ne v 839864388 with rfl | h2
    · decide
    · have c1 : ¬(KEYCHRON_INFO.lookup "vendorProductId" = some (JVal.jnum v)) := by
        intro hc
        rw [show KEYCHRON_INFO.lookup "vendorProductId" =
          some (JVal.jnum 875824656) from rfl] at hc
        simp only [Option.some_inj, JVal.jnum.injEq] at hc
        exact h1 hc.symm
      have c2 : ¬(GMMK_INFO.lookup "vendorProductId" = some (JVal.jnum v)) := by
        intro hc
        rw [show GMMK_INFO.lookup "vendorProductId" =
          some (JVal.jnum 839864388) from rfl] at hc
        simp only [Option.some_inj, JVal.jnum.injEq] at hc
        exact h2 hc.symm
      rw [if_neg c1, if_neg c2]
      refine ⟨⟨fun hc => absurd (Option.some_inj.mp hc) (by simp),
        fun hc => absurd hc h1⟩,
        ⟨fun hc => absurd (Option.some_inj.mp hc) (by simp),
        fun hc => absurd hc h2⟩,
        fun _ _ => rfl⟩

theorem viaC4_witness :
    List.lookup "vendorProductId"
        [("vendorProductId", JVal.jnum 875824656)] =
      some (JVal.jnum 875824656) ∧
    detect_keyboard [("vendorProductId", JVal.jnum 875824656)] =
      some (some "KEYCHRON") :=
  ⟨rfl, (viaC4 [("vendorProductId", JVal.jnum 875824656)] 875824656 rfl).1.mpr rfl⟩

/-- C7: every key other than `vendorProductId`, `name` and `layers` looks
up to the same value in the output configuration as in the input; the
input itself is a pure value the embedding never modifies (the source
makes a shallow copy before updating). -/
theorem viaC7 (config : List (String × JVal)) (keyboard : String)
    (out : List (String × JVal)) (hout : map_config config keyboard = some out)
    (k : String) (h1 : k ≠ "vendorProductId") (h2 : k ≠ "name")
    (h3 : k ≠ "layers") : out.lookup k = config.lookup k := by
  rw [map_config_eq] at hout
  have hinfo : ∀ info : List (String × JVal),
      info = GMMK_INFO ∨ info = KEYCHRON_INFO → ∀ q ∈ info, k ≠ q.1 := by
    rintro info (rfl | rfl) q hq <;>
      rcases List.mem_cons.mp hq with rfl | hq' <;>
      first
        | exact h2
        | (rcases List.mem_cons.mp hq' with rfl | hq'' <;>
            first
              | exact h1
              | exact absurd hq'' (List.not_mem_nil _))
  by_cases hkb : keyboard = "KEYCHRON"
  · rw [if_pos hkb] at hout
    obtain ⟨layers, nls, -, -, rfl⟩ := _map_config_some hout
    rw [lookup_set_key_ne h3, lookup_dict_update_ne _ _ (hinfo _ (Or.inl rfl))]
  · rw [if_neg hkb] at hout
    obtain ⟨layers, nls, -, -, rfl⟩ := _map_config_some hout
    rw [lookup_set_key_ne h3, lookup_dict_update_ne _ _ (hinfo _ (Or.inr rfl))]

theorem viaC7_witness :
    ((map_config sample_extra_config "KEYCHRON").getD []).lookup "macros" =
      sample_extra_config.lookup "macros" :=
  viaC7 sample_extra_config "KEYCHRON" _ (by rfl) "macros"
    (by decide) (by decide) (by decide)

/-- C3 (amended): a Keychron configuration whose layers all cover the
Keychron layout maps to a configuration with the GMMK identifier
839864388, the name `"GMMK Pro"`, and one output layer of length 88 (the
length of `GMMK_LAYER`) per input layer. -/
theorem viaC3 (config : List (String × JVal)) (ls : List (List String))
    (h1 : config.lookup "vendorProductId" = some (JVal.jnum 875824656))
    (h2 : config.lookup "layers" = some (JVal.jlayers ls))
    (hcov : ∀ l ∈ ls, KEYCHRON_LAYER.length ≤ l.length) :
    ∃ out, map_config config "KEYCHRON" = some out ∧
      out.lookup "vendorProductId" = some (JVal.jnum 839864388) ∧
      out.lookup "name" = some (JVal.jstr "GMMK Pro") ∧
      ∃ nls, out.lookup "layers" = some (JVal.jlayers nls) ∧
        nls.length = ls.length ∧ ∀ l ∈ nls, l.length = GMMK_LAYER.length := by
  obtain ⟨nls, hnls⟩ :=
    @map_layers_total KEYCHRON_LAYER GMMK_LAYER KEYCHRON_FIXES ls hcov
  refine ⟨set_key (dict_update config GMMK_INFO) "layers" (JVal.jlayers nls),
    ?_, ?_, ?_, nls, ?_, ?_, ?_⟩
  · rw [map_config_eq, if_pos rfl]
    exact _map_config_build h2 hnls
  · rw [lookup_set_key_ne (by decide)]
    show (set_key (set_key config "name" (JVal.jstr "GMMK Pro"))
      "vendorProductId" (JVal.jnum 839864388)).lookup "vendorProductId" = _
    rw [lookup_set_key_self]
  · rw [lookup_set_key_ne (by decide)]
    show (set_key (set_key config "name" (JVal.jstr "GMMK Pro"))
      "vendorProductId" (JVal.jnum 839864388)).lookup "name" = _
    rw [lookup_set_key_ne (by decide), lookup_set_key_self]
  · rw [lookup_set_key_self]
  · exact (map_layers_spec hnls).1
  · exact (map_layers_spec hnls).2

theorem viaC3_witness :
    ((map_config keychron_sample_config "KEYCHRON").getD []).lookup
        "vendorProductId" = some (JVal.jnum 839864388) ∧
    ((map_config keychron_sample_config "KEYCHRON").getD []).lookup "name" =
      some (JVal.jstr "GMMK Pro") ∧
    (map_config keychron_sample_config "KEYCHRON").bind layers_lengths =
      some [GMMK_LAYER.length] := by
  obtain ⟨out, hout, hv, hn, nls, hl, hlen, hall⟩ :=
    viaC3 keychron_sample_config [KEYCHRON_LAYER] rfl rfl
      (fun l hl => by
        rw [List.mem_singleton] at hl
        subst hl
        exact Nat.le_refl _)
  rw [hout]
  refine ⟨hv, hn, ?_⟩
  show layers_lengths out = some [GMMK_LAYER.length]
  unfold layers_lengths
  rw [hl]
  cases nls with
  | nil => simp at hlen
  | cons a rest =>
    cases rest with
    | nil => simp [hall a (List.mem_cons_self a [])]
    | cons b r2 => simp at hlen

/-- C3 counterexample: the claim asserts output layers of length 87, but
the GMMK layout has 88 entries, so the single mapped layer of a concrete
Keychron configuration has length 88, not 87. -/
theorem viaC3_counterexample :
    (map_config keychron_sample_config "KEYCHRON").bind layers_lengths =
      some [88] ∧ (88 : Nat) ≠ 87 := by
  constructor
  · decide
  · decide

/-- C5: a token that is a key of `KEYCHRON_FIXES` (e.g. `"CUSTOM(0)"`),
read at a mapped position of a Keychron layer, appears in the mapped GMMK
layer as its fixup replacement at the mapped position, and the original
token appears nowhere in the output. -/
theorem viaC5 (layer out : List String) (i j : Nat) (t : String)
    (ht : (KEYCHRON_FIXES.lookup t).isSome = true)
    (hmem : (i, j) ∈ get_mapping KEYCHRON_LAYER GMMK_LAYER)
    (hread : layer[i]? = some t)
    (hmap : map_layer layer GMMK_LAYER.length
      (get_mapping KEYCHRON_LAYER GMMK_LAYER) KEYCHRON_FIXES = some out) :
    out[j]? = some (apply_fixes KEYCHRON_FIXES t) ∧ ¬(t ∈ out) := by
  have htno : t ≠ "KC_NO" := by
    intro hh
    rw [hh] at ht
    exact absurd ht (by decide)
  constructor
  · refine map_fold_write hmap hmem ?_ hread htno
    intro p hp hpj
    have hpe : p = (i, j) :=
      pairwise_dest_unique keychron_gmmk_inj hp hmem (by simpa using hpj)
    rw [hpe]
  · intro hmem_t
    rcases map_fold_mem hmap hmem_t with hin | ⟨p, hp, key, hkey, hkno, hfixv⟩
    · exact htno (List.eq_of_mem_replicate hin)
    · cases hlook : KEYCHRON_FIXES.lookup key with
      | some w =>
        have hw : (key, w) ∈ KEYCHRON_FIXES := lookup_mem hlook
        have happ : apply_fixes KEYCHRON_FIXES key = w := by
          unfold apply_fixes
          rw [hlook]
          rfl
        rw [happ] at hfixv
        rw [hfixv] at hw
        have hnone : ∀ q ∈ KEYCHRON_FIXES,
            KEYCHRON_FIXES.lookup q.2 = none := by decide
        have hn2 : KEYCHRON_FIXES.lookup t = none := hnone (key, t) hw
        rw [hn2] at ht
        exact absurd ht (by decide)
      | none =>
        have happ : apply_fixes KEYCHRON_FIXES key = key := by
          unfold apply_fixes
          rw [hlook]
          rfl
        rw [happ] at hfixv
        rw [hfixv] at hlook
        rw [hlook] at ht
        exact absurd ht (by decide)

theorem viaC5_witness :
    ((map_layer (KEYCHRON_LAYER.set 0 "CUSTOM(0)") GMMK_LAYER.length
        (get_mapping KEYCHRON_LAYER GMMK_LAYER) KEYCHRON_FIXES).getD
      [])[11]? = some "KC_LALT" ∧
    ¬("CUSTOM(0)" ∈ (map_layer (KEYCHRON_LAYER.set 0 "CUSTOM(0)")
        GMMK_LAYER.length (get_mapping KEYCHRON_LAYER GMMK_LAYER)
        KEYCHRON_FIXES).getD []) := by
  have h := viaC5 (KEYCHRON_LAYER.set 0 "CUSTOM(0)") _ 0 11 "CUSTOM(0)"
    (by decide) (by decide) (by decide) (by rfl)
  exact ⟨h.1, h.2⟩

/-- C6 (amended): for every fixup table none of whose replacement values
is the placeholder — as is the case for both `KEYCHRON_FIXES` and
`GMMK_FIXES` — the mapping step of `map_layer` never writes the
placeholder: an output position holding `"KC_NO"` means every mapping
pair aimed at it read the placeholder from the source layer. -/
theorem viaC6 :
    (∀ q ∈ KEYCHRON_FIXES, q.2 ≠ "KC_NO") ∧
    (∀ q ∈ GMMK_FIXES, q.2 ≠ "KC_NO") ∧
    ∀ (layer : List String) (size : Nat) (mapping : List (Nat × Nat))
      (fixes : List (String × String)) (out : List String) (j : Nat),
      (∀ q ∈ fixes, q.2 ≠ "KC_NO") →
      map_layer layer size mapping fixes = some out →
      out[j]? = some "KC_NO" →
      ∀ p ∈ mapping, p.2 = j → layer[p.1]? = some "KC_NO" := by
  refine ⟨by decide, by decide, ?_⟩
  intro layer size mapping fixes out j hfix h hj
  exact (map_fold_placeholder hfix h hj).2

theorem viaC6_witness :
    (["KC_NO"] : List String)[0]? = some "KC_NO" :=
  viaC6.2.2 ["KC_NO"] 1 [(0, 0)] [] ["KC_NO"] 0
    (by decide) (by decide) (by decide) (0, 0) (by decide) rfl

/-- C6 counterexample: with the fixup table `{"KC_A": "KC_NO"}` the
mapping step itself writes the placeholder: position 0 of the output
holds `"KC_NO"` although the pair `(0, 0)` wrote to it from the
non-placeholder source key `"KC_A"`. -/
theorem viaC6_counterexample :
    map_layer ["KC_A"] 1 [(0, 0)] [("KC_A", "KC_NO")] = some ["KC_NO"] ∧
    (0, 0) ∈ ([(0, 0)] : List (Nat × Nat)) ∧
    (["KC_A"] : List String)[0]? = some "KC_A" ∧ "KC_A" ≠ "KC_NO" := by
  decide

/-- C8: `"KC_DEL"` sits at GMMK position 53, and a GMMK layer holding
`"KC_DEL"` there and nowhere else contributes nothing to the mapped
Keychron layer: no position of the output holds `"KC_DEL"`. -/
theorem viaC8 :
    GMMK_LAYER[53]? = some "KC_DEL" ∧
    ∀ (layer out : List String),
      layer[53]? = some "KC_DEL" →
      (∀ i, i < layer.length → i ≠ 53 → layer[i]? ≠ some "KC_DEL") →
      map_layer layer KEYCHRON_LAYER.length
        (get_mapping GMMK_LAYER KEYCHRON_LAYER) GMMK_FIXES = some out →
      ¬("KC_DEL" ∈ out) := by
  refine ⟨by decide, ?_⟩
  intro layer out h53 honly hmap hmem
  rcases map_fold_mem hmap hmem with hin | ⟨p, hp, key, hkey, hkno, hfixv⟩
  · exact absurd (List.eq_of_mem_replicate hin) (by decide)
  · have happ : apply_fixes GMMK_FIXES key = key := rfl
    rw [happ] at hfixv
    subst hfixv
    have hlt : p.1 < layer.length := (List.getElem?_eq_some.mp hkey).1
    by_cases hp53 : p.1 = 53
    · exact gmmk_53_unmapped p hp hp53
    · exact honly p.1 hlt hp53 hkey

theorem viaC8_witness :
    ¬("KC_DEL" ∈ (map_layer GMMK_LAYER KEYCHRON_LAYER.length
        (get_mapping GMMK_LAYER KEYCHRON_LAYER) GMMK_FIXES).getD []) :=
  viaC8.2 GMMK_LAYER _ (by decide) (by decide) (by rfl)

/-- C9: the Keychron layer equal to the default layout except for a real
key (`"KC_DEL"`) at position 14 — a position the Keychron layout leaves
unassigned, hence absent from the Keychron→GMMK mapping — does not
survive the round trip Keychron→GMMK→Keychron: the key is dropped on the
way out and the position returns as the placeholder. -/
theorem viaC9 :
    ∃ layer : List String,
      ((map_layer layer GMMK_LAYER.length
          (get_mapping KEYCHRON_LAYER GMMK_LAYER) KEYCHRON_FIXES).bind
        (fun g => map_layer g KEYCHRON_LAYER.length
          (get_mapping GMMK_LAYER KEYCHRON_LAYER) GMMK_FIXES)) ≠
        some layer :=
  ⟨KEYCHRON_LAYER.set 14 "KC_DEL", by decide⟩

/-- C10: both concrete index mappings are injective (no destination is
hit twice), because non-placeholder tokens are pairwise distinct in each
layout; consequently each destination position is written at most once in
`map_layer` and the output of a successful run is independent of the
iteration order over an injective mapping. -/
theorem viaC10 :
    (get_mapping KEYCHRON_LAYER GMMK_LAYER).Pairwise (fun p q => p.2 ≠ q.2) ∧
    (get_mapping GMMK_LAYER KEYCHRON_LAYER).Pairwise (fun p q => p.2 ≠ q.2) ∧
    KEYCHRON_LAYER.Pairwise (fun a b => a ≠ "KC_NO" → b ≠ "KC_NO" → a ≠ b) ∧
    GMMK_LAYER.Pairwise (fun a b => a ≠ "KC_NO" → b ≠ "KC_NO" → a ≠ b) ∧
    ∀ (layer : List String) (size : Nat) (fixes : List (String × String))
      (m1 m2 : List (Nat × Nat)) (out1 out2 : List String),
      List.Perm m1 m2 → m1.Pairwise (fun p q => p.2 ≠ q.2) →
      map_layer layer size m1 fixes = some out1 →
      map_layer layer size m2 fixes = some out2 → out1 = out2 := by
  refine ⟨keychron_gmmk_inj, gmmk_keychron_inj, keychron_tokens_distinct,
    gmmk_tokens_distinct, ?_⟩
  intro layer size fixes m1 m2 out1 out2 hperm hinj h1 h2
  have hinj2 : m2.Pairwise (fun p q => p.2 ≠ q.2) :=
    (List.Perm.pairwise_iff (fun h => Ne.symm h) hperm).mp hinj
  apply List.ext_getElem?
  intro j
  by_cases hw : ∃ p, p ∈ m1 ∧ p.2 = j ∧ layer[p.1]? ≠ some "KC_NO"
  · obtain ⟨p, hp, hpj, hpkey⟩ := hw
    obtain ⟨key, hkey⟩ := map_fold_reads h1 p hp
    have hkno : key ≠ "KC_NO" := fun hh => hpkey (by rw [hkey, hh])
    have hp' : (p.1, j) ∈ m1 := by
      rw [show ((p.1, j) : Nat × Nat) = p by rw [← hpj]]
      exact hp
    have huniq1 : ∀ q ∈ m1, q.2 = j → q.1 = p.1 := by
      intro q hq hqj
      have : q = (p.1, j) :=
        pairwise_dest_unique hinj hq hp' (by simpa using hqj)
      rw [this]
    have huniq2 : ∀ q ∈ m2, q.2 = j → q.1 = p.1 := by
      intro q hq hqj
      have : q = (p.1, j) :=
        pairwise_dest_unique hinj2 hq (hperm.mem_iff.mp hp')
          (by simpa using hqj)
      rw [this]
    rw [map_fold_write h1 hp' huniq1 hkey hkno,
      map_fold_write h2 (hperm.mem_iff.mp hp') huniq2 hkey hkno]
  · push_neg at hw
    have hskip1 : ∀ p ∈ m1, p.2 = j → layer[p.1]? = some "KC_NO" :=
      fun p hp hpj => hw p hp hpj
    have hskip2 : ∀ p ∈ m2, p.2 = j → layer[p.1]? = some "KC_NO" :=
      fun p hp hpj => hw p (hperm.mem_iff.mpr hp) hpj
    rw [map_fold_skip h1 hskip1, map_fold_skip h2 hskip2]

theorem viaC10_witness :
    (map_layer ["KC_A"] 2 [(0, 0), (0, 1)] []).getD [] =
      (map_layer ["KC_A"] 2 [(0, 1), (0, 0)] []).getD [] :=
  viaC10.2.2.2.2 ["KC_A"] 2 [] [(0, 0), (0, 1)] [(0, 1), (0, 0)]
    ((map_layer ["KC_A"] 2 [(0, 0), (0, 1)] []).getD [])
    ((map_layer ["KC_A"] 2 [(0, 1), (0, 0)] []).getD [])
    (by decide) (by decide) (by rfl) (by rfl)

end VIAMapper
